import Mathlib

/-!
# Verification of the data-driven test pipeline (`DataDrivenTestManager`)

Shallow embedding of `src/utils/data-driven-test-manager.ts`.

Modelling conventions:
* JavaScript primitive values are modelled by `JSValue`; a record (one row of a
  data source) is a JS object modelled as an association list from field name
  to value (`Rec`).  `record[key]` on a missing key yields `undefined`.
* Promises/exceptions are modelled with `Except`: a function that can throw
  returns `Except String _` (the error's `.message`), or a structured
  `LoadError` for the loader.
* Wall-clock durations are not modelled (every duration is `0`); they play no
  role in any property considered here.
* `Math.random`-driven shuffling (`getRandomSample`'s comparator-based sort,
  which always yields some permutation of its input) is abstracted as an
  explicit `shuffle` oracle argument.
* The `testDataCache` `Map` is modelled as an association list with
  insert-at-front, which has the same lookup semantics as `Map.set`/`Map.get`
  for the operations used here.
-/

/-- A JavaScript primitive value, as it occurs in loaded data records and in
filter criteria.  Objects nested inside record fields do not occur in the
properties considered here. -/
inductive JSValue : Type
  | vstr (s : String)
  | vnum (n : Int)
  | vbool (b : Bool)
  | vnull
  | vundef
deriving DecidableEq, Repr

/-- A data record: a JS object, i.e. an ordered association of field names to
values. -/
abbrev Rec : Type := List (String × JSValue)

/-- Field access `record[key]`; a missing key yields `undefined`. -/
def getField (record : Rec) (key : String) : JSValue :=
  match record.lookup key with
  | some v => v
  | none => JSValue.vundef

/-- JavaScript strict equality `===` on the primitive values modelled here
(values of different type are never strictly equal). -/
def jsStrictEq (a b : JSValue) : Bool :=
  match a, b with
  | JSValue.vstr x, JSValue.vstr y => x == y
  | JSValue.vnum x, JSValue.vnum y => x == y
  | JSValue.vbool x, JSValue.vbool y => x == y
  | JSValue.vnull, JSValue.vnull => true
  | JSValue.vundef, JSValue.vundef => true
  | _, _ => false

/-- JavaScript string coercion `String(v)` for the modelled primitives, as
performed by `RegExp.prototype.test` on a non-string argument. -/
def jsToString : JSValue → String
  | JSValue.vstr s => s
  | JSValue.vnum n => toString n
  | JSValue.vbool b => if b then "true" else "false"
  | JSValue.vnull => "null"
  | JSValue.vundef => "undefined"

/-- JavaScript truthiness test `!v` (negated) for the modelled primitives:
`""`, `0`, `false`, `null` and `undefined` are falsy. -/
def jsTruthy : JSValue → Bool
  | JSValue.vstr s => !(s == "")
  | JSValue.vnum n => !(n == 0)
  | JSValue.vbool b => b
  | JSValue.vnull => false
  | JSValue.vundef => false

/-- Lower-casing of a string, character by character (the model of
case-insensitive comparison under the regex `i` flag; exact for the ASCII
data appearing in criteria). -/
def lowerStr (s : String) : String := String.mk (s.data.map Char.toLower)

/-!
## The wildcard matcher of `filterData`

The source builds `new RegExp(value.replace(/\*/g, ".*"), "i")` from a
criterion value containing `*` and applies `regex.test(record[key])`.
`Tok` models the compiled pattern for criterion values built from literal
characters, `.` and `*` (no other regex metacharacters occur in the
properties considered).  `RegExp.test` performs an *unanchored search*: the
pattern may match any substring of the subject; `rtest` models this by
wrapping the pattern in `.*` on both sides and requiring a full match.
-/

/-- One token of the compiled filter regex: a literal character, `.`
(any single character), or `.*` (any run of characters, the image of `*`). -/
inductive Tok : Type
  | lit (c : Char)
  | dot
  | dotStar
deriving DecidableEq, Repr

/-- Search for a suffix of the subject accepted by the continuation `rm`;
this is how `.*` consumes an arbitrary prefix. -/
def starSearch (rm : List Char → Bool) : List Char → Bool
  | [] => rm []
  | x :: xs => rm (x :: xs) || starSearch rm xs

/-- Full (anchored) match of a token list against a character list, comparing
literals case-insensitively (the `i` flag). -/
def rmatch : List Tok → List Char → Bool
  | [], [] => true
  | [], _ :: _ => false
  | Tok.lit _ :: _, [] => false
  | Tok.lit c :: ts, x :: xs => (x.toLower == c.toLower) && rmatch ts xs
  | Tok.dot :: _, [] => false
  | Tok.dot :: ts, _ :: xs => rmatch ts xs
  | Tok.dotStar :: ts, s => starSearch (rmatch ts) s

/-- Compilation of a criterion value into the token list of
`new RegExp(value.replace(/\*/g, ".*"), "i")` (for values whose characters
are literals, `.` or `*`). -/
def compilePattern (s : String) : List Tok :=
  s.data.map (fun c =>
    if c == '*' then Tok.dotStar else if c == '.' then Tok.dot else Tok.lit c)

/-- The model of `regex.test subject`: unanchored search, i.e. a full match of
`.* pattern .*`. -/
def rtest (toks : List Tok) (s : String) : Bool :=
  rmatch (Tok.dotStar :: (toks ++ [Tok.dotStar])) s.data

/-- One criterion check of `filterData`: a string value containing `*` is
turned into a case-insensitive regex and searched in the record's field
(coerced to string); every other value is compared with `===`. -/
def matchesCriterion (record : Rec) (key : String) (value : JSValue) : Bool :=
  match value with
  | JSValue.vstr s =>
    if s.data.contains '*' then
      rtest (compilePattern s) (jsToString (getField record key))
    else jsStrictEq (getField record key) value
  | v => jsStrictEq (getField record key) v

/-- `filterData` (source lines 509–519): keep the records for which every
criterion entry matches. -/
def filterData (data : List Rec) (criteria : List (String × JSValue)) : List Rec :=
  data.filter (fun record =>
    criteria.all (fun kv => matchesCriterion record kv.1 kv.2))

/-!
## Loading (`loadTestData`, source lines 37–122)

`path.resolve` is modelled as the identity (working-directory resolution is
injective on the paths considered and irrelevant to the properties here).
`path.extname`/`path.basename` are modelled on the final path component.
The three format handlers are opaque collaborators, supplied as `Readers`;
the model counts how many times a handler is invoked (third component of the
result), which is the call-counting observable of the cache property.
-/

/-- Model of `path.resolve` (identity: resolution against the working
directory does not affect any property considered here). -/
def resolvePath (p : String) : String := p

/-- The final component of a path (model of `path.basename`). -/
def basename (p : String) : String :=
  String.mk (p.data.foldl (fun acc c => if c == '/' then [] else acc ++ [c]) [])

/-- Model of `path.extname`: the suffix of the final path component starting
at its last dot; empty when there is no dot or when the only dot is the
leading character. -/
def extname (p : String) : String :=
  let b := (basename p).data
  match ((List.range b.length).filter (fun i => b.getD i ' ' == '.')).getLast? with
  | none => ""
  | some 0 => ""
  | some i => String.mk (b.drop i)

/-- A whole-file JSON document: either a top-level array of records or a
single non-array value (which `loadTestData` wraps in a one-element list). -/
inductive JSONDoc : Type
  | arr (items : List Rec)
  | one (item : Rec)
deriving DecidableEq, Repr

/-- The format-handler collaborators (`csvHandler.readCSVFile`,
`excelHandler.readExcelFile`, `jsonHandler.readJSONFile`), each able to
reject with an error message. -/
structure Readers : Type where
  readCSV : String → Except String (List Rec)
  readExcel : String → Option String → Except String (List Rec)
  readJSON : String → Except String JSONDoc

/-- Options of `loadTestData` (defaults as destructured in the source). -/
structure LoadOptions : Type where
  sheetName : Option String := none
  useCache : Bool := true
  filterCriteria : Option (List (String × JSValue)) := none
  sampleSize : Option Int := none
  randomSample : Bool := false
deriving DecidableEq, Repr

/-- An error escaping `loadTestData`: the `default` branch of the format
switch, or a rejection from a format handler. -/
inductive LoadError : Type
  | unsupportedFormat (ext : String)
  | readerFailure (msg : String)
deriving DecidableEq, Repr

/-- The `.message` of the thrown error, as observed by callers that format
it into strings. -/
def LoadError.message : LoadError → String
  | LoadError.unsupportedFormat ext => "Unsupported file format: " ++ ext
  | LoadError.readerFailure m => m

/-- The format switch of `loadTestData` (source lines 65–95): dispatch on
the lower-cased extension, wrap a non-array JSON document, reject unknown
extensions. -/
def readBySwitch (readers : Readers) (absolutePath : String)
    (sheetName : Option String) : Except LoadError (List Rec) :=
  let fileExtension := lowerStr (extname absolutePath)
  if fileExtension == ".csv" then
    (readers.readCSV absolutePath).mapError LoadError.readerFailure
  else if fileExtension == ".xlsx" || fileExtension == ".xls" then
    (readers.readExcel absolutePath sheetName).mapError LoadError.readerFailure
  else if fileExtension == ".json" then
    match readers.readJSON absolutePath with
    | Except.ok (JSONDoc.arr items) => Except.ok items
    | Except.ok (JSONDoc.one item) => Except.ok [item]
    | Except.error m => Except.error (LoadError.readerFailure m)
  else
    Except.error (LoadError.unsupportedFormat fileExtension)

/-- Whether the extension dispatches to a format handler at all (used to
count handler invocations). -/
def extSupported (absolutePath : String) : Bool :=
  let e := lowerStr (extname absolutePath)
  e == ".csv" || e == ".xlsx" || e == ".xls" || e == ".json"

/-- JavaScript `list.slice(0, e)`: a negative end index counts from the end
of the list. -/
def jsSliceTo (l : List Rec) (e : Int) : List Rec :=
  let eIdx : Int := if e < 0 then (l.length : Int) + e else e
  l.take eIdx.toNat

/-- The filtering step of `loadTestData` (source lines 98–101). -/
def applyFilter (data : List Rec) (filterCriteria : Option (List (String × JSValue))) :
    List Rec :=
  match filterCriteria with
  | some criteria => filterData data criteria
  | none => data

/-- The sampling step of `loadTestData` (source lines 103–109): guarded by
the JS truthiness test `sampleSize && sampleSize < data.length`; the random
branch is `getRandomSample` (slice of a shuffled copy, the shuffle being the
comparator-based sort abstracted by the `shuffle` oracle). -/
def applySampling (shuffle : List Rec → List Rec) (data : List Rec)
    (sampleSize : Option Int) (randomSample : Bool) : List Rec :=
  match sampleSize with
  | none => data
  | some n =>
    if !(n == 0) && decide (n < (data.length : Int)) then
      if randomSample then jsSliceTo (shuffle data) n else jsSliceTo data n
    else data

/-- A cache key: the resolved path paired with the options record (the model
of `absolutePath + "_" + JSON.stringify(options)`; serialization of the
options is deterministic, which is all the properties here use). -/
abbrev CacheKey : Type := String × LoadOptions

/-- The mutable state of a `DataDrivenTestManager` instance relevant here:
the `testDataCache` map. -/
structure ManagerState : Type where
  testDataCache : List (CacheKey × List Rec) := []
deriving DecidableEq

/-- `loadTestData` (source lines 37–122).  Returns the thrown error or the
loaded records, the updated manager state, and the number of format-handler
invocations performed by this call. -/
def loadTestData (readers : Readers) (shuffle : List Rec → List Rec)
    (st : ManagerState) (filePath : String) (opts : LoadOptions) :
    Except LoadError (List Rec) × ManagerState × Nat :=
  let absolutePath := resolvePath filePath
  let cacheKey : CacheKey := (absolutePath, opts)
  match opts.useCache, st.testDataCache.lookup cacheKey with
  | true, some cached => (Except.ok cached, st, 0)
  | _, _ =>
    let calls := if extSupported absolutePath then 1 else 0
    match readBySwitch readers absolutePath opts.sheetName with
    | Except.error e => (Except.error e, st, calls)
    | Except.ok data0 =>
      let data1 := applyFilter data0 opts.filterCriteria
      let data2 := applySampling shuffle data1 opts.sampleSize opts.randomSample
      let st' :=
        if opts.useCache then
          { st with testDataCache := (cacheKey, data2) :: st.testDataCache }
        else st
      (Except.ok data2, st', calls)

/-!
## Execution (`executeDataDrivenTests`, source lines 164–303)

The execution engine is generic in the record type `α` (the source operates
on `any[]`): `DecidableEq α` models JavaScript `===` on the loaded records —
value equality for primitives, while distinct parsed objects are distinct
values.  The per-source loading call `this.loadTestData(...)` is abstracted
into a `loader : String → Except String (List α)` (the manager's loader at
its current state, errors carried as messages), since no execution property
considered here depends on cache evolution between sources.

The caller-supplied `testFunction` is `α → Nat → String → Except String Unit`
(record, index, source label; a rejection carries the error message).
`Promise.all` over a chunk is modelled by `collectAll`, which rejects with
the first rejection in array order — a deterministic refinement of the
timing-dependent choice of rejection in JS that carries the same
observables (whether the call rejects, and the produced results otherwise).
Results pushed into `results` before an abort with `continueOnFailure =
false` are unobservable (the summary is never returned), so a per-source
step either contributes all its results or aborts the run.
-/

/-- Status of one execution result. -/
inductive TestStatus : Type
  | passed
  | failed
  | skipped
deriving DecidableEq, Repr

/-- One Execution Result (element of `results`). -/
structure TestResult (α : Type) : Type where
  source : String
  index : Nat
  status : TestStatus
  duration : Nat
  error : Option String
  data : Option α
deriving DecidableEq, Repr

/-- The Execution Summary returned by `executeDataDrivenTests`. -/
structure ExecSummary (α : Type) : Type where
  totalTests : Nat
  passed : Nat
  failed : Nat
  skipped : Nat
  results : List (TestResult α)
deriving DecidableEq, Repr

/-- One element of `dataSources` (the `type`, `sheetName` and
`filterCriteria` fields are not used by the execution logic itself: `type`
is never read, and the other two are forwarded to the loader, which is
abstract here). -/
structure DataSource : Type where
  path : String
  label : Option String := none
deriving DecidableEq, Repr

/-- `executeSingleTest` (source lines 534–570): run the test function on a
record; a rejection is converted into a "failed" result carrying the error
message when `continueOnFailure` is set, and rethrown otherwise. -/
def executeSingleTest {α : Type} (testFunction : α → Nat → String → Except String Unit)
    (data : α) (index : Nat) (source : String) (continueOnFailure : Bool) :
    Except String (TestResult α) :=
  match testFunction data index source with
  | Except.ok _ =>
    Except.ok ⟨source, index, TestStatus.passed, 0, none, some data⟩
  | Except.error msg =>
    if !continueOnFailure then Except.error msg
    else Except.ok ⟨source, index, TestStatus.failed, 0, some msg, some data⟩

/-- The result record `executeSingleTest` produces when it does not rethrow
(used to state its behaviour). -/
def singleResult {α : Type} (testFunction : α → Nat → String → Except String Unit)
    (data : α) (index : Nat) (source : String) : TestResult α :=
  match testFunction data index source with
  | Except.ok _ => ⟨source, index, TestStatus.passed, 0, none, some data⟩
  | Except.error msg => ⟨source, index, TestStatus.failed, 0, some msg, some data⟩

/-- Fuel-driven body of `chunkArray`; the fuel is the list length, enough for
any chunk size that is at least 1 (each step consumes at least one element). -/
def chunkArrayGo {α : Type} : Nat → List α → Nat → List (List α)
  | _, [], _ => []
  | 0, _ :: _, _ => []
  | fuel + 1, a, chunkSize => a.take chunkSize :: chunkArrayGo fuel (a.drop chunkSize) chunkSize

/-- `chunkArray` (source lines 526–532): split into contiguous chunks of
`chunkSize`.  The source's loop does not terminate for `chunkSize = 0`; the
model returns `[]` there (every property about the parallel path therefore
assumes `1 ≤ maxConcurrency`, the only case in which the source returns). -/
def chunkArray {α : Type} (array : List α) (chunkSize : Nat) : List (List α) :=
  if chunkSize == 0 then [] else chunkArrayGo array.length array chunkSize

/-- Model of `Promise.all`: all ok yields the list of values in array order;
otherwise the rejection (deterministically the first in array order). -/
def collectAll {ε β : Type} : List (Except ε β) → Except ε (List β)
  | [] => Except.ok []
  | Except.ok b :: rest => (collectAll rest).map (fun bs => b :: bs)
  | Except.error e :: _ => Except.error e

/-- The promise array built for one chunk (source lines 229–238): each record
is executed with the global index `chunks.flat().indexOf(record)`. -/
def runChunk {α : Type} [DecidableEq α]
    (testFunction : α → Nat → String → Except String Unit) (sourceLabel : String)
    (continueOnFailure : Bool) (flat : List α) (chunk : List α) :
    List (Except String (TestResult α)) :=
  chunk.map (fun record =>
    executeSingleTest testFunction record (flat.indexOf record) sourceLabel continueOnFailure)

/-- The chunk loop of the parallel branch (source lines 228–242): chunks are
awaited one after another, their results appended in chunk order. -/
def collectChunks {α : Type} [DecidableEq α]
    (testFunction : α → Nat → String → Except String Unit) (sourceLabel : String)
    (continueOnFailure : Bool) (flat : List α) :
    List (List α) → Except String (List (TestResult α))
  | [] => Except.ok []
  | chunk :: rest => do
    let chunkResults ← collectAll (runChunk testFunction sourceLabel continueOnFailure flat chunk)
    let more ← collectChunks testFunction sourceLabel continueOnFailure flat rest
    pure (chunkResults ++ more)

/-- The sequential branch (source lines 244–255): run records in index order
starting at index `i`. -/
def runSequential {α : Type} (testFunction : α → Nat → String → Except String Unit)
    (sourceLabel : String) (continueOnFailure : Bool) (i : Nat) :
    List α → Except String (List (TestResult α))
  | [] => Except.ok []
  | record :: rest => do
    let result ← executeSingleTest testFunction record i sourceLabel continueOnFailure
    let more ← runSequential testFunction sourceLabel continueOnFailure (i + 1) rest
    pure (result :: more)

/-- The body of the per-data-source `try` block (source lines 211–255): load,
derive the source label, execute all records in the selected mode; returns
the number of loaded records (the increment of `totalTests`) and the
produced results. -/
def processSource {α : Type} [DecidableEq α] (loader : String → Except String (List α))
    (testFunction : α → Nat → String → Except String Unit)
    (parallel : Bool) (maxConcurrency : Nat) (continueOnFailure : Bool)
    (dataSource : DataSource) : Except String (Nat × List (TestResult α)) := do
  let data ← loader dataSource.path
  let sourceLabel := dataSource.label.getD (basename dataSource.path)
  if parallel then
    let chunks := chunkArray data maxConcurrency
    let results ← collectChunks testFunction sourceLabel continueOnFailure chunks.flatten chunks
    pure (data.length, results)
  else
    let results ← runSequential testFunction sourceLabel continueOnFailure 0 data
    pure (data.length, results)

/-- The `for (const dataSource of dataSources)` loop with its `catch`
(source lines 210–266): on a per-source error, continue with the remaining
sources when `continueOnFailure` is set, otherwise rethrow. -/
def execLoop {α : Type} (proc : DataSource → Except String (Nat × List (TestResult α)))
    (continueOnFailure : Bool) :
    List DataSource → Nat → List (TestResult α) → Except String (Nat × List (TestResult α))
  | [], totalTests, results => Except.ok (totalTests, results)
  | dataSource :: rest, totalTests, results =>
    match proc dataSource with
    | Except.ok (n, rs) => execLoop proc continueOnFailure rest (totalTests + n) (results ++ rs)
    | Except.error e =>
      if continueOnFailure then execLoop proc continueOnFailure rest totalTests results
      else Except.error e

/-- `executeDataDrivenTests` (source lines 164–303).  The second component of
a successful return models the reports written by `generateReport` (the
report serializes the summary; timestamps and cache statistics are not
modelled): exactly one report on success when `generateReport` is set, and
none when the call rethrows instead of returning a summary. -/
def executeDataDrivenTests {α : Type} [DecidableEq α]
    (loader : String → Except String (List α))
    (testFunction : α → Nat → String → Except String Unit)
    (dataSources : List DataSource) (parallel : Bool) (maxConcurrency : Nat)
    (continueOnFailure : Bool) (generateReport : Bool) :
    Except String (ExecSummary α × List (ExecSummary α)) :=
  match execLoop (processSource loader testFunction parallel maxConcurrency continueOnFailure)
      continueOnFailure dataSources 0 [] with
  | Except.error e => Except.error e
  | Except.ok (totalTests, results) =>
    let passed := results.countP (fun r => r.status == TestStatus.passed)
    let failed := results.countP (fun r => r.status == TestStatus.failed)
    let skipped := results.countP (fun r => r.status == TestStatus.skipped)
    let summary : ExecSummary α := ⟨totalTests, passed, failed, skipped, results⟩
    Except.ok (summary, if generateReport then [summary] else [])

/-!
## Integrity validation (`validateDataIntegrity`, source lines 394–469)

Each source is loaded through `loadTestData` with `{useCache: false}`, which
neither reads nor writes the cache, so the manager state is unchanged across
the loop.  `Object.keys(record).sort()` is modelled by a structural
insertion sort on the field names (for strings, every correct sort produces
the same list, so the choice of algorithm is immaterial), and the
`JSON.stringify` comparison of two sorted key arrays is modelled as list
equality (stringification of string arrays is injective).
-/

/-- Insertion step of the string sort. -/
def insertSorted (x : String) : List String → List String
  | [] => [x]
  | y :: ys => if x ≤ y then x :: y :: ys else y :: insertSorted x ys

/-- Model of `Array.prototype.sort()` on an array of strings. -/
def sortStrings (l : List String) : List String := l.foldr insertSorted []

/-- The sorted field names of a record (`Object.keys(record).sort()`). -/
def sortedKeys (record : Rec) : List String := sortStrings (record.map Prod.fst)

/-- One issue reported by `validateDataIntegrity`. -/
structure Issue : Type where
  source : String
  issue : String
  severity : String
deriving DecidableEq, Repr

/-- The inconsistent-structure check (source lines 424–436): compare each
record's sorted key set against the first record's, reporting record
positions 2.. (1-based in the message) that diverge. -/
def structureIssues (source : String) (data : List Rec) : List Issue :=
  if data.length > 1 then
    let firstKeys := sortedKeys (data.headD [])
    ((List.range (data.length - 1)).map (fun k => k + 1)).filterMap (fun i =>
      if !(sortedKeys (data.getD i []) == firstKeys) then
        some ⟨source, "Inconsistent structure at record " ++ toString (i + 1), "medium"⟩
      else none)
  else []

/-- The two hard-coded required fields. -/
def requiredFields : List String := ["testType", "priority"]

/-- The missing-required-field check (source lines 439–450): one issue per
(record, required field) pair whose value is falsy. -/
def missingFieldIssues (source : String) (data : List Rec) : List Issue :=
  data.flatMap (fun record =>
    requiredFields.filterMap (fun field =>
      if !(jsTruthy (getField record field)) then
        some ⟨source, "Missing required field \x27" ++ field ++ "\x27 in some records",
          "medium"⟩
      else none))

/-- The options `validateDataIntegrity` passes to `loadTestData`. -/
def validateOpts : LoadOptions := { useCache := false }

/-- The `try` body and `catch` for one source (source lines 410–458): a load
failure or an empty source flips `valid` (first component `false`); the
issues are pushed in source order: empty-source, then structure, then
missing-field, or the single load-failure issue. -/
def checkSource (readers : Readers) (shuffle : List Rec → List Rec)
    (st : ManagerState) (source : String) : Bool × List Issue :=
  match (loadTestData readers shuffle st source validateOpts).1 with
  | Except.ok data =>
    let emptyIssues :=
      if data.length == 0 then [⟨source, "Data source is empty", "high"⟩] else []
    (!(data.length == 0), emptyIssues ++ structureIssues source data ++ missingFieldIssues source data)
  | Except.error e =>
    (false, [⟨source, "Failed to load data source: " ++ e.message, "high"⟩])

/-- `validateDataIntegrity` (source lines 394–469): fold over the sources,
accumulating `valid` (conjunction of the per-source flags) and the
concatenated issue lists. -/
def validateDataIntegrity (readers : Readers) (shuffle : List Rec → List Rec)
    (st : ManagerState) (dataSources : List String) : Bool × List Issue :=
  dataSources.foldl (fun acc source =>
    let c := checkSource readers shuffle st source
    (acc.1 && c.1, acc.2 ++ c.2)) (true, [])

/-!
## Supporting lemmas
-/

theorem executeSingleTest_cont {α : Type} (tf : α → Nat → String → Except String Unit)
    (d : α) (i : Nat) (s : String) :
    executeSingleTest tf d i s true = Except.ok (singleResult tf d i s) := by
  unfold executeSingleTest singleResult
  cases tf d i s <;> rfl

theorem singleResult_index {α : Type} (tf : α → Nat → String → Except String Unit)
    (d : α) (i : Nat) (s : String) : (singleResult tf d i s).index = i := by
  unfold singleResult
  cases tf d i s <;> rfl

theorem executeSingleTest_ok_status {α : Type} {tf : α → Nat → String → Except String Unit}
    {d : α} {i : Nat} {s : String} {c : Bool} {r : TestResult α}
    (h : executeSingleTest tf d i s c = Except.ok r) : r.status ≠ TestStatus.skipped := by
  unfold executeSingleTest at h
  cases htf : tf d i s with
  | ok u => rw [htf] at h; cases h; intro hc; cases hc
  | error m =>
    rw [htf] at h
    cases c with
    | false => simp at h
    | true => simp at h; cases h; intro hc; cases hc

theorem executeSingleTest_abort {α : Type} {tf : α → Nat → String → Except String Unit}
    {d : α} {i : Nat} {s : String} {m : String}
    (h : tf d i s = Except.error m) : executeSingleTest tf d i s false = Except.error m := by
  unfold executeSingleTest
  rw [h]
  rfl

theorem collectAll_ok {ε β : Type} :
    ∀ {es : List (Except ε β)} {bs : List β}, collectAll es = Except.ok bs →
      bs.length = es.length ∧ ∀ b ∈ bs, Except.ok b ∈ es := by
  intro es
  induction es with
  | nil => intro bs h; cases h; exact ⟨rfl, by intro b hb; cases hb⟩
  | cons e rest ih =>
    intro bs h
    cases e with
    | error m => simp [collectAll] at h
    | ok b0 =>
      simp only [collectAll] at h
      cases hrest : collectAll rest with
      | error m => rw [hrest] at h; simp [Except.map] at h
      | ok bs0 =>
        rw [hrest] at h
        simp [Except.map] at h
        subst h
        obtain ⟨hlen, hmem⟩ := ih hrest
        refine ⟨by simp [hlen], ?_⟩
        intro b hb
        rcases List.mem_cons.1 hb with hb | hb
        · subst hb; exact List.mem_cons_self _ _
        · exact List.mem_cons_of_mem _ (hmem b hb)

theorem collectAll_map_ok {ε β γ : Type} (g : γ → β) :
    ∀ l : List γ, collectAll (l.map (fun x => (Except.ok (g x) : Except ε β)))
      = Except.ok (l.map g) := by
  intro l
  induction l with
  | nil => rfl
  | cons x xs ih => simp [collectAll, ih, Except.map]

theorem collectAll_error_of_mem {ε β : Type} :
    ∀ {es : List (Except ε β)} {e : ε}, Except.error e ∈ es →
      ∃ e', collectAll es = Except.error e' := by
  intro es
  induction es with
  | nil => intro e h; cases h
  | cons x rest ih =>
    intro e h
    cases x with
    | error m => exact ⟨m, rfl⟩
    | ok b =>
      rcases List.mem_cons.1 h with hx | hx
      · cases hx
      · obtain ⟨e', he'⟩ := ih hx
        exact ⟨e', by simp [collectAll, he', Except.map]⟩

theorem chunkArrayGo_flatten {α : Type} :
    ∀ (fuel : Nat) (a : List α) (n : Nat), a.length ≤ fuel → 1 ≤ n →
      (chunkArrayGo fuel a n).flatten = a := by
  intro fuel
  induction fuel with
  | zero =>
    intro a n ha _
    cases a with
    | nil => rfl
    | cons x xs => simp at ha
  | succ f ih =>
    intro a n ha hn
    cases a with
    | nil => rfl
    | cons x xs =>
      show (List.take n (x :: xs) :: chunkArrayGo f (List.drop n (x :: xs)) n).flatten = x :: xs
      have hdrop : (List.drop n (x :: xs)).length ≤ f := by
        rw [List.length_drop]
        simp only [List.length_cons] at ha ⊢
        omega
      rw [List.flatten_cons, ih _ n hdrop hn, List.take_append_drop]

theorem chunkArray_flatten {α : Type} (a : List α) (n : Nat) (hn : 1 ≤ n) :
    (chunkArray a n).flatten = a := by
  unfold chunkArray
  have : (n == 0) = false := by simp; omega
  rw [this]
  exact chunkArrayGo_flatten a.length a n (Nat.le_refl _) hn

theorem collectChunks_ok {α : Type} [DecidableEq α]
    {tf : α → Nat → String → Except String Unit} {lbl : String} {cOF : Bool}
    {flat : List α} :
    ∀ {chunks : List (List α)} {rs : List (TestResult α)},
      collectChunks tf lbl cOF flat chunks = Except.ok rs →
      rs.length = chunks.flatten.length ∧ ∀ r ∈ rs, r.status ≠ TestStatus.skipped := by
  intro chunks
  induction chunks with
  | nil => intro rs h; cases h; exact ⟨rfl, by intro r hr; cases hr⟩
  | cons chunk rest ih =>
    intro rs h
    simp only [collectChunks, bind, Except.bind] at h
    cases hc : collectAll (runChunk tf lbl cOF flat chunk) with
    | error e => rw [hc] at h; cases h
    | ok cr =>
      rw [hc] at h
      cases hrest : collectChunks tf lbl cOF flat rest with
      | error e => rw [hrest] at h; cases h
      | ok more =>
        rw [hrest] at h
        simp only [pure, Except.pure] at h
        cases h
        obtain ⟨hlen1, hmem1⟩ := collectAll_ok hc
        obtain ⟨hlen2, hmem2⟩ := ih hrest
        constructor
        · simp [hlen1, hlen2, runChunk]
        · intro r hr
          rcases List.mem_append.1 hr with hr | hr
          · have := hmem1 r hr
            simp only [runChunk, List.mem_map] at this
            obtain ⟨record, _, hrec⟩ := this
            exact executeSingleTest_ok_status hrec
          · exact hmem2 r hr

theorem collectChunks_cont {α : Type} [DecidableEq α]
    (tf : α → Nat → String → Except String Unit) (lbl : String) (flat : List α) :
    ∀ chunks : List (List α),
      collectChunks tf lbl true flat chunks
        = Except.ok (chunks.flatten.map (fun r => singleResult tf r (flat.indexOf r) lbl)) := by
  intro chunks
  induction chunks with
  | nil => rfl
  | cons chunk rest ih =>
    have hchunk : runChunk tf lbl true flat chunk
        = chunk.map (fun r => Except.ok (singleResult tf r (flat.indexOf r) lbl)) := by
      simp only [runChunk]
      exact List.map_congr_left (fun r _ => executeSingleTest_cont tf r (flat.indexOf r) lbl)
    simp only [collectChunks, bind, Except.bind, hchunk,
      collectAll_map_ok (fun r => singleResult tf r (flat.indexOf r) lbl) chunk, ih,
      pure, Except.pure, List.flatten_cons, List.map_append]

theorem collectChunks_error {α : Type} [DecidableEq α]
    {tf : α → Nat → String → Except String Unit} {lbl : String} {cOF : Bool}
    {flat : List α} :
    ∀ {chunks : List (List α)} {chunk : List α} {e : String}, chunk ∈ chunks →
      collectAll (runChunk tf lbl cOF flat chunk) = Except.error e →
      ∃ e', collectChunks tf lbl cOF flat chunks = Except.error e' := by
  intro chunks
  induction chunks with
  | nil => intro chunk e h; cases h
  | cons c rest ih =>
    intro chunk e hmem herr
    cases hc : collectAll (runChunk tf lbl cOF flat c) with
    | error e0 => exact ⟨e0, by simp [collectChunks, bind, Except.bind, hc]⟩
    | ok cr =>
      rcases List.mem_cons.1 hmem with hmem | hmem
      · subst hmem; rw [hc] at herr; cases herr
      · obtain ⟨e', he'⟩ := ih hmem herr
        exact ⟨e', by simp [collectChunks, bind, Except.bind, hc, he']⟩

theorem runSequential_ok {α : Type} {tf : α → Nat → String → Except String Unit}
    {lbl : String} {cOF : Bool} :
    ∀ {data : List α} {i : Nat} {rs : List (TestResult α)},
      runSequential tf lbl cOF i data = Except.ok rs →
      rs.length = data.length ∧ ∀ r ∈ rs, r.status ≠ TestStatus.skipped := by
  intro data
  induction data with
  | nil => intro i rs h; cases h; exact ⟨rfl, by intro r hr; cases hr⟩
  | cons x xs ih =>
    intro i rs h
    simp only [runSequential, bind, Except.bind] at h
    cases hx : executeSingleTest tf x i lbl cOF with
    | error e => rw [hx] at h; cases h
    | ok r0 =>
      rw [hx] at h
      cases hrest : runSequential tf lbl cOF (i + 1) xs with
      | error e => rw [hrest] at h; cases h
      | ok more =>
        rw [hrest] at h
        simp only [pure, Except.pure] at h
        cases h
        obtain ⟨hlen, hmem⟩ := ih hrest
        refine ⟨by simp [hlen], ?_⟩
        intro r hr
        rcases List.mem_cons.1 hr with hr | hr
        · subst hr; exact executeSingleTest_ok_status hx
        · exact hmem r hr

theorem runSequential_error {α : Type} {tf : α → Nat → String → Except String Unit}
    {lbl : String} :
    ∀ {data : List α} {i k : Nat} {m : String} (hk : k < data.length),
      tf (data.get ⟨k, hk⟩) (i + k) lbl = Except.error m →
      ∃ e, runSequential tf lbl false i data = Except.error e := by
  intro data
  induction data with
  | nil => intro i k m hk; simp at hk
  | cons x xs ih =>
    intro i k m hk htf
    cases hx : executeSingleTest tf x i lbl false with
    | error e => exact ⟨e, by simp [runSequential, bind, Except.bind, hx]⟩
    | ok r0 =>
      cases k with
      | zero =>
        simp only [List.get] at htf
        rw [Nat.add_zero] at htf
        rw [executeSingleTest_abort htf] at hx
        cases hx
      | succ k0 =>
        have hk0 : k0 < xs.length := by simp at hk; omega
        have htf0 : tf (xs.get ⟨k0, hk0⟩) (i + 1 + k0) lbl = Except.error m := by
          have : i + 1 + k0 = i + (k0 + 1) := by omega
          rw [this]
          exact htf
        obtain ⟨e, he⟩ := ih hk0 htf0
        exact ⟨e, by simp [runSequential, bind, Except.bind, hx, he]⟩

theorem processSource_ok {α : Type} [DecidableEq α]
    {loader : String → Except String (List α)}
    {tf : α → Nat → String → Except String Unit} {par : Bool} {maxC : Nat} {cOF : Bool}
    {ds : DataSource} {n : Nat} {rs : List (TestResult α)}
    (hmc : par = true → 1 ≤ maxC)
    (h : processSource loader tf par maxC cOF ds = Except.ok (n, rs)) :
    n = rs.length ∧ ∀ r ∈ rs, r.status ≠ TestStatus.skipped := by
  simp only [processSource, bind, Except.bind] at h
  cases hload : loader ds.path with
  | error e => rw [hload] at h; cases h
  | ok data =>
    rw [hload] at h
    dsimp only at h
    cases par with
    | true =>
      rw [if_pos rfl] at h
      cases hcc : collectChunks tf (ds.label.getD (basename ds.path)) cOF
          (chunkArray data maxC).flatten (chunkArray data maxC) with
      | error e => rw [hcc] at h; cases h
      | ok results =>
        rw [hcc] at h
        dsimp only [pure, Except.pure] at h
        cases h
        obtain ⟨hlen, hmem⟩ := collectChunks_ok hcc
        refine ⟨?_, hmem⟩
        rw [hlen, chunkArray_flatten data maxC (hmc rfl)]
    | false =>
      rw [if_neg (by intro hc; cases hc)] at h
      cases hrun : runSequential tf (ds.label.getD (basename ds.path)) cOF 0 data with
      | error e => rw [hrun] at h; cases h
      | ok results =>
        rw [hrun] at h
        dsimp only [pure, Except.pure] at h
        cases h
        obtain ⟨hlen, hmem⟩ := runSequential_ok hrun
        exact ⟨hlen.symm, hmem⟩

theorem execLoop_ok {α : Type}
    {proc : DataSource → Except String (Nat × List (TestResult α))} {cOF : Bool}
    (hproc : ∀ {ds n rs}, proc ds = Except.ok (n, rs) →
      n = rs.length ∧ ∀ r ∈ rs, r.status ≠ TestStatus.skipped) :
    ∀ {sources : List DataSource} {total : Nat} {acc : List (TestResult α)}
      {T : Nat} {R : List (TestResult α)},
      total = acc.length → (∀ r ∈ acc, r.status ≠ TestStatus.skipped) →
      execLoop proc cOF sources total acc = Except.ok (T, R) →
      T = R.length ∧ ∀ r ∈ R, r.status ≠ TestStatus.skipped := by
  intro sources
  induction sources with
  | nil =>
    intro total acc T R htot hst h
    cases h
    exact ⟨htot, hst⟩
  | cons ds rest ih =>
    intro total acc T R htot hst h
    simp only [execLoop] at h
    cases hds : proc ds with
    | ok p =>
      obtain ⟨n, rs⟩ := p
      rw [hds] at h
      obtain ⟨hn, hrs⟩ := hproc hds
      refine ih ?_ ?_ h
      · simp [htot, hn]
      · intro r hr
        rcases List.mem_append.1 hr with hr | hr
        · exact hst r hr
        · exact hrs r hr
    | error e =>
      rw [hds] at h
      cases cOF with
      | true => exact ih htot hst h
      | false => simp at h

theorem execLoop_error {α : Type}
    {proc : DataSource → Except String (Nat × List (TestResult α))} :
    ∀ {sources : List DataSource} (total : Nat) (acc : List (TestResult α))
      {ds : DataSource} {e : String},
      ds ∈ sources → proc ds = Except.error e →
      ∃ e', execLoop proc false sources total acc = Except.error e' := by
  intro sources
  induction sources with
  | nil => intro total acc ds e h; cases h
  | cons d rest ih =>
    intro total acc ds e hmem herr
    cases hd : proc d with
    | error e0 => exact ⟨e0, by simp [execLoop, hd]⟩
    | ok p =>
      obtain ⟨n, rs⟩ := p
      rcases List.mem_cons.1 hmem with hmem | hmem
      · subst hmem; rw [hd] at herr; cases herr
      · obtain ⟨e', he'⟩ := ih (total + n) (acc ++ rs) hmem herr
        exact ⟨e', by simp [execLoop, hd, he']⟩

theorem countP_status_split {α : Type} :
    ∀ {rs : List (TestResult α)}, (∀ r ∈ rs, r.status ≠ TestStatus.skipped) →
      rs.countP (fun r => r.status == TestStatus.passed)
        + rs.countP (fun r => r.status == TestStatus.failed) = rs.length
      ∧ rs.countP (fun r => r.status == TestStatus.skipped) = 0 := by
  intro rs
  induction rs with
  | nil => intro _; exact ⟨rfl, rfl⟩
  | cons r rest ih =>
    intro h
    have hr := h r (List.mem_cons_self _ _)
    have hrest := ih (fun x hx => h x (List.mem_cons_of_mem _ hx))
    obtain ⟨h1, h2⟩ := hrest
    cases hs : r.status with
    | passed =>
      constructor
      · simp [List.countP_cons, hs, h1.symm]; omega
      · simp [List.countP_cons, hs, h2]
    | failed =>
      constructor
      · simp [List.countP_cons, hs, h1.symm]; omega
      · simp [List.countP_cons, hs, h2]
    | skipped => exact absurd hs hr

theorem map_indexOf_range {α : Type} [DecidableEq α] (d : List α) (hd : d.Nodup) :
    d.map (fun r => d.indexOf r) = List.range d.length := by
  apply List.ext_get
  · simp
  · intro i h1 h2
    rw [List.get_map, List.get_range]
    have := List.get_indexOf hd (i := ⟨i, by simpa using h1⟩)
    simpa using this

theorem starSearch_iff (rm : List Char → Bool) :
    ∀ s : List Char, starSearch rm s = true ↔ ∃ a b, s = a ++ b ∧ rm b = true := by
  intro s
  induction s with
  | nil =>
    simp only [starSearch]
    constructor
    · intro h; exact ⟨[], [], rfl, h⟩
    · rintro ⟨a, b, hab, hb⟩
      have : a = [] ∧ b = [] := by
        constructor <;> [skip; skip] <;>
          · cases a with
            | nil => simp at hab; simp [hab]
            | cons x xs => simp at hab
      rw [this.2] at hb
      exact hb
  | cons x xs ih =>
    simp only [starSearch, Bool.or_eq_true]
    constructor
    · intro h
      rcases h with h | h
      · exact ⟨[], x :: xs, rfl, h⟩
      · obtain ⟨a, b, hab, hb⟩ := ih.1 h
        exact ⟨x :: a, b, by simp [hab], hb⟩
    · rintro ⟨a, b, hab, hb⟩
      cases a with
      | nil => left; simp at hab; rw [hab]; exact hb
      | cons y ys =>
        right
        apply ih.2
        simp at hab
        exact ⟨ys, b, hab.2, hb⟩

theorem rmatch_append_dotStar :
    ∀ (ts : List Tok) (b c : List Char), rmatch ts b = true →
      rmatch (ts ++ [Tok.dotStar]) (b ++ c) = true := by
  intro ts
  induction ts with
  | nil =>
    intro b c h
    have hb : b = [] := by cases b with | nil => rfl | cons y ys => simp [rmatch] at h
    subst hb
    show rmatch [Tok.dotStar] c = true
    show starSearch (rmatch []) c = true
    exact (starSearch_iff _ c).2 ⟨c, [], by simp, rfl⟩
  | cons t ts ih =>
    intro b c h
    cases t with
    | lit ch =>
      cases b with
      | nil => simp [rmatch] at h
      | cons x xs =>
        simp only [rmatch, Bool.and_eq_true] at h
        show rmatch (Tok.lit ch :: (ts ++ [Tok.dotStar])) (x :: (xs ++ c)) = true
        simp only [rmatch, Bool.and_eq_true]
        exact ⟨h.1, ih xs c h.2⟩
    | dot =>
      cases b with
      | nil => simp [rmatch] at h
      | cons x xs =>
        show rmatch (Tok.dot :: (ts ++ [Tok.dotStar])) (x :: (xs ++ c)) = true
        show rmatch (ts ++ [Tok.dotStar]) (xs ++ c) = true
        exact ih xs c h
    | dotStar =>
      have h' : starSearch (rmatch ts) b = true := h
      obtain ⟨a, b', hab, hb'⟩ := (starSearch_iff _ b).1 h'
      show starSearch (rmatch (ts ++ [Tok.dotStar])) (b ++ c) = true
      apply (starSearch_iff _ (b ++ c)).2
      exact ⟨a, b' ++ c, by simp [hab], ih b' c hb'⟩

theorem rtest_of_substring_match (toks : List Tok) (a b c : List Char)
    (h : rmatch toks b = true) : rtest toks (String.mk (a ++ b ++ c)) = true := by
  show rmatch (Tok.dotStar :: (toks ++ [Tok.dotStar])) (a ++ b ++ c) = true
  show starSearch (rmatch (toks ++ [Tok.dotStar])) (a ++ b ++ c) = true
  apply (starSearch_iff _ _).2
  exact ⟨a, b ++ c, by simp, rmatch_append_dotStar toks b c h⟩

/-!
## Claim theorems
-/

/-- Claim C3, counterexample to the claim as stated: the criteria
`{name: "test*"}` DO retain a record whose name is `"mytest"` (the claim
asserts they do not), because `RegExp.test` searches for the pattern
anywhere in the field instead of matching the whole field. -/
theorem C3_counterexample :
    filterData [[("name", JSValue.vstr "mytest")]] [("name", JSValue.vstr "test*")]
      = [[("name", JSValue.vstr "mytest")]] := by decide

/-- Claim C3 (corrected): a string criterion value containing a wildcard is
matched as a case-insensitive *unanchored search* in which `*` matches any
run of characters — the compiled pattern may match any substring of the
record's field (first conjunct: a pattern match on any segment `b` of the
field `a ++ b ++ c` makes the test succeed).  Consequently
`{name: "test*"}` matches `"testAlpha"`, `"testing"` and also `"mytest"`,
while `"other"` is rejected; criterion values without a wildcard are
compared by strict equality (last conjunct). -/
theorem C3_wildcard_unanchored_search :
    (∀ (toks : List Tok) (a b c : List Char), rmatch toks b = true →
      rtest toks (String.mk (a ++ b ++ c)) = true)
    ∧ filterData
        [[("name", JSValue.vstr "testAlpha")], [("name", JSValue.vstr "testing")],
          [("name", JSValue.vstr "mytest")]]
        [("name", JSValue.vstr "test*")]
      = [[("name", JSValue.vstr "testAlpha")], [("name", JSValue.vstr "testing")],
          [("name", JSValue.vstr "mytest")]]
    ∧ filterData [[("name", JSValue.vstr "other")]] [("name", JSValue.vstr "test*")] = []
    ∧ (∀ (record : Rec) (key : String) (s : String), s.data.contains '*' = false →
        matchesCriterion record key (JSValue.vstr s)
          = jsStrictEq (getField record key) (JSValue.vstr s)) := by
  refine ⟨rtest_of_substring_match, by decide, by decide, ?_⟩
  intro record key s hs
  have hs' : ¬ '*' ∈ s.data := by simpa using hs
  simp [matchesCriterion, hs']

/-- Claim C3, witness: the substring conjunct of
`C3_wildcard_unanchored_search` at a concrete pattern and split. -/
theorem C3_witness :
    rtest [Tok.lit 'e'] (String.mk (['a'] ++ ['e'] ++ ['b'])) = true :=
  C3_wildcard_unanchored_search.1 [Tok.lit 'e'] ['a'] ['e'] ['b'] (by decide)

/-- Claim C9: filtering is order-preserving selection — the filtered result
is a sublist (subsequence) of the input, membership is exactly "all criteria
match", and the spec's concrete example keeps the two smoke records in their
original relative order. -/
theorem C9_filter_order_preserving :
    (∀ (data : List Rec) (criteria : List (String × JSValue)),
      (filterData data criteria).Sublist data)
    ∧ (∀ (data : List Rec) (criteria : List (String × JSValue)) (r : Rec),
        r ∈ filterData data criteria ↔
          r ∈ data ∧ criteria.all (fun kv => matchesCriterion r kv.1 kv.2) = true)
    ∧ filterData
        [[("t", JSValue.vstr "smoke")], [("t", JSValue.vstr "regression")],
          [("t", JSValue.vstr "smoke")]]
        [("t", JSValue.vstr "smoke")]
      = [[("t", JSValue.vstr "smoke")], [("t", JSValue.vstr "smoke")]] := by
  refine ⟨fun data criteria => List.filter_sublist data, ?_, by decide⟩
  intro data criteria r
  simp [filterData, List.mem_filter]

/-- Claim C9, witness: the sublist conjunct of `C9_filter_order_preserving`
at a concrete input. -/
theorem C9_witness :
    (filterData [[("t", JSValue.vstr "smoke")]] [("t", JSValue.vstr "x")]).Sublist
      [[("t", JSValue.vstr "smoke")]] :=
  C9_filter_order_preserving.1 [[("t", JSValue.vstr "smoke")]] [("t", JSValue.vstr "x")]

/-- Claim C2: with `useCache = true`, a second `loadTestData` call with the
same path and options, against the state left by a first successful call and
with the file (readers) unchanged, returns the same record list, leaves the
state unchanged, and performs zero format-handler invocations (the cache hit
never reaches a reader). -/
theorem C2_cache_hit_returns_identical (readers : Readers) (shuffle : List Rec → List Rec)
    (st : ManagerState) (p : String) (opts : LoadOptions) (data : List Rec)
    (st' : ManagerState) (k : Nat)
    (huc : opts.useCache = true)
    (h : loadTestData readers shuffle st p opts = (Except.ok data, st', k)) :
    loadTestData readers shuffle st' p opts = (Except.ok data, st', 0) := by
  cases hlk : st.testDataCache.lookup (resolvePath p, opts) with
  | some cached =>
    have hfirst : loadTestData readers shuffle st p opts = (Except.ok cached, st, 0) := by
      simp [loadTestData, huc, hlk]
    rw [hfirst] at h
    injection h with ha hbc
    injection hbc with hb hc
    injection ha with had
    subst had
    subst hb
    simp [loadTestData, huc, hlk]
  | none =>
    cases hrb : readBySwitch readers (resolvePath p) opts.sheetName with
    | error e =>
      have hfirst : (loadTestData readers shuffle st p opts).1 = Except.error e := by
        simp [loadTestData, huc, hlk, hrb]
      rw [h] at hfirst
      simp at hfirst
    | ok data0 =>
      simp only [loadTestData, huc, hlk, hrb, Prod.ext_iff, Except.ok.injEq, if_true] at h
      obtain ⟨h1, h2, h3⟩ := h
      subst h1
      subst h2
      simp [loadTestData, huc, List.lookup]

/-- Readers used by concrete witness instantiations: a fixed one-record JSON
document, empty CSV/Excel results. -/
def witnessReaders : Readers :=
  ⟨fun _ => Except.ok [], fun _ _ => Except.ok [],
    fun _ => Except.ok (JSONDoc.arr [[("a", JSValue.vnum 1)]])⟩

/-- Claim C2, witness: a concrete first load from an empty cache, followed by
a second identical call, which returns the same list with zero reader
invocations. -/
theorem C2_witness :
    loadTestData witnessReaders id ⟨[]⟩ "d.json" {}
      = (Except.ok [[("a", JSValue.vnum 1)]],
          ⟨[(("d.json", {}), [[("a", JSValue.vnum 1)]])]⟩, 1)
    ∧ loadTestData witnessReaders id ⟨[(("d.json", {}), [[("a", JSValue.vnum 1)]])]⟩
        "d.json" {}
      = (Except.ok [[("a", JSValue.vnum 1)]],
          ⟨[(("d.json", {}), [[("a", JSValue.vnum 1)]])]⟩, 0) :=
  ⟨rfl, C2_cache_hit_returns_identical witnessReaders id ⟨[]⟩ "d.json" {}
    [[("a", JSValue.vnum 1)]] ⟨[(("d.json", {}), [[("a", JSValue.vnum 1)]])]⟩ 1 rfl rfl⟩

/-- Claim C7: for a path whose (lower-cased) extension is none of `.csv`,
`.xlsx`, `.xls`, `.json`, and whose cache key is not already present (no
reachable state caches such a key, since only successful reads of supported
extensions are cached), `loadTestData` fails with the
unsupported-format error, leaves the manager state unchanged (in particular
nothing is added to the cache), and invokes no format handler. -/
theorem C7_unsupported_format (readers : Readers) (shuffle : List Rec → List Rec)
    (st : ManagerState) (p : String) (opts : LoadOptions)
    (hmiss : st.testDataCache.lookup (resolvePath p, opts) = none)
    (hext : lowerStr (extname (resolvePath p)) ∉ ([".csv", ".xlsx", ".xls", ".json"] : List String)) :
    loadTestData readers shuffle st p opts
      = (Except.error (LoadError.unsupportedFormat (lowerStr (extname (resolvePath p)))), st, 0) := by
  have h1 : (lowerStr (extname (resolvePath p)) == ".csv") = false := by
    simp only [beq_eq_false_iff_ne]
    intro hc
    exact hext (by rw [hc]; simp)
  have h2 : (lowerStr (extname (resolvePath p)) == ".xlsx") = false := by
    simp only [beq_eq_false_iff_ne]
    intro hc
    exact hext (by rw [hc]; simp)
  have h3 : (lowerStr (extname (resolvePath p)) == ".xls") = false := by
    simp only [beq_eq_false_iff_ne]
    intro hc
    exact hext (by rw [hc]; simp)
  have h4 : (lowerStr (extname (resolvePath p)) == ".json") = false := by
    simp only [beq_eq_false_iff_ne]
    intro hc
    exact hext (by rw [hc]; simp)
  have hsup : extSupported (resolvePath p) = false := by
    simp only [extSupported, h1, h2, h3, h4]
    rfl
  have hrb : readBySwitch readers (resolvePath p) opts.sheetName
      = Except.error (LoadError.unsupportedFormat (lowerStr (extname (resolvePath p)))) := by
    simp only [readBySwitch, h1, h2, h3, h4]
    rfl
  cases hbu : opts.useCache with
  | true => simp [loadTestData, hbu, hmiss, hrb, hsup]
  | false => simp [loadTestData, hbu, hmiss, hrb, hsup]

/-- Claim C7, witness: a `.txt` path against an empty manager fails with the
unsupported-format error and caches nothing. -/
theorem C7_witness :
    loadTestData witnessReaders id ⟨[]⟩ "data.txt" {}
      = (Except.error (LoadError.unsupportedFormat ".txt"), ⟨[]⟩, 0) :=
  C7_unsupported_format witnessReaders id ⟨[]⟩ "data.txt" {} rfl (by decide)

/-- Claim C6 (corrected): when `sampleSize` is present, **positive** and
smaller than the filtered record count (a `sampleSize` of `0` is falsy in
the guard `sampleSize && sampleSize < data.length` and is ignored — see the
counterexample), a cache-bypassing load returns exactly `sampleSize`
records: with `randomSample = false` the first `sampleSize` records of the
filtered list (deterministically — the model is a function of its inputs),
and with `randomSample = true` a prefix of length `sampleSize` of a
permutation of the filtered list, i.e. `sampleSize` records drawn without
replacement (uniformity of the permutation is not modelled). -/
theorem C6_sampling_positive (readers : Readers) (shuffle : List Rec → List Rec)
    (st : ManagerState) (p : String) (opts : LoadOptions) (data0 : List Rec) (n : Int)
    (huc : opts.useCache = false)
    (hss : opts.sampleSize = some n) (hpos : 0 < n)
    (hload : readBySwitch readers (resolvePath p) opts.sheetName = Except.ok data0)
    (hlt : n < ((applyFilter data0 opts.filterCriteria).length : Int)) :
    (opts.randomSample = false →
      (loadTestData readers shuffle st p opts).1
        = Except.ok ((applyFilter data0 opts.filterCriteria).take n.toNat)
      ∧ ((applyFilter data0 opts.filterCriteria).take n.toNat).length = n.toNat)
    ∧ (opts.randomSample = true →
        (shuffle (applyFilter data0 opts.filterCriteria)).Perm
            (applyFilter data0 opts.filterCriteria) →
        ∃ pm : List Rec, pm.Perm (applyFilter data0 opts.filterCriteria)
          ∧ (loadTestData readers shuffle st p opts).1 = Except.ok (pm.take n.toNat)
          ∧ (pm.take n.toNat).length = n.toNat) := by
  have hres : (loadTestData readers shuffle st p opts).1
      = Except.ok (applySampling shuffle (applyFilter data0 opts.filterCriteria)
          opts.sampleSize opts.randomSample) := by
    simp [loadTestData, huc, hload]
  rw [hss] at hres
  have hcond : (!(n == 0) && decide (n < ((applyFilter data0 opts.filterCriteria).length : Int)))
      = true := by
    simp only [Bool.and_eq_true, Bool.not_eq_true', beq_eq_false_iff_ne, ne_eq,
      decide_eq_true_eq]
    exact ⟨by omega, hlt⟩
  have hnn : ¬ n < 0 := by omega
  have happ : applySampling shuffle (applyFilter data0 opts.filterCriteria) (some n)
      opts.randomSample
      = if opts.randomSample then (shuffle (applyFilter data0 opts.filterCriteria)).take n.toNat
        else (applyFilter data0 opts.filterCriteria).take n.toNat := by
    simp only [applySampling, hcond, if_true, jsSliceTo, if_neg hnn]
  constructor
  · intro hrs
    rw [happ, if_neg (by rw [hrs]; intro hc; cases hc)] at hres
    refine ⟨hres, ?_⟩
    rw [List.length_take]
    omega
  · intro hrs hperm
    rw [happ, if_pos (by rw [hrs])] at hres
    refine ⟨shuffle (applyFilter data0 opts.filterCriteria), hperm, hres, ?_⟩
    rw [List.length_take]
    have := hperm.length_eq
    omega

/-- Claim C6, counterexample to the claim as stated: `sampleSize = 0` is
present and smaller than the filtered count (two records), yet the result is
not reduced to `0` records — the JS guard `sampleSize && ...` treats `0` as
falsy and skips sampling entirely, returning both records. -/
theorem C6_counterexample :
    (loadTestData
        ⟨fun _ => Except.ok [[("a", JSValue.vnum 1)], [("a", JSValue.vnum 2)]],
          fun _ _ => Except.ok [], fun _ => Except.ok (JSONDoc.arr [])⟩
        id ⟨[]⟩ "d.csv" { useCache := false, sampleSize := some 0 }).1
      = Except.ok [[("a", JSValue.vnum 1)], [("a", JSValue.vnum 2)]] := rfl

/-- Claim C6, witness: `sampleSize = 2, randomSample = false` on a 3-record
CSV set returns the first two records. -/
theorem C6_witness :
    (loadTestData
        ⟨fun _ => Except.ok [[("a", JSValue.vnum 1)], [("a", JSValue.vnum 2)],
            [("a", JSValue.vnum 3)]],
          fun _ _ => Except.ok [], fun _ => Except.ok (JSONDoc.arr [])⟩
        id ⟨[]⟩ "d.csv" { useCache := false, sampleSize := some 2 }).1
      = Except.ok [[("a", JSValue.vnum 1)], [("a", JSValue.vnum 2)]] :=
  ((C6_sampling_positive
      ⟨fun _ => Except.ok [[("a", JSValue.vnum 1)], [("a", JSValue.vnum 2)],
          [("a", JSValue.vnum 3)]],
        fun _ _ => Except.ok [], fun _ => Except.ok (JSONDoc.arr [])⟩
      id ⟨[]⟩ "d.csv" { useCache := false, sampleSize := some 2 }
      [[("a", JSValue.vnum 1)], [("a", JSValue.vnum 2)], [("a", JSValue.vnum 3)]]
      2 rfl rfl (by decide) rfl (by decide)).1 rfl).1

/-- Claim C4: sequential mode, `continueOnFailure = true`, three records of
which exactly the invocation at index 1 rejects: every exception is caught,
the index-1 result is "failed" and carries the thrown message, the others
pass, and the summary is `{totalTests: 3, passed: 2, failed: 1, skipped: 0}`
(the report, generated on success, serializes the same summary). -/
theorem C4_sequential_continue_on_failure {α : Type} [DecidableEq α]
    (loader : String → Except String (List α))
    (tf : α → Nat → String → Except String Unit)
    (r0 r1 r2 : α) (p lbl msg : String)
    (hload : loader p = Except.ok [r0, r1, r2])
    (h0 : tf r0 0 lbl = Except.ok ())
    (h1 : tf r1 1 lbl = Except.error msg)
    (h2 : tf r2 2 lbl = Except.ok ()) :
    executeDataDrivenTests loader tf [⟨p, some lbl⟩] false 4 true true
      = Except.ok
          (⟨3, 2, 1, 0,
            [⟨lbl, 0, TestStatus.passed, 0, none, some r0⟩,
              ⟨lbl, 1, TestStatus.failed, 0, some msg, some r1⟩,
              ⟨lbl, 2, TestStatus.passed, 0, none, some r2⟩]⟩,
            [⟨3, 2, 1, 0,
              [⟨lbl, 0, TestStatus.passed, 0, none, some r0⟩,
                ⟨lbl, 1, TestStatus.failed, 0, some msg, some r1⟩,
                ⟨lbl, 2, TestStatus.passed, 0, none, some r2⟩]⟩]) := by
  have hseq : runSequential tf lbl true 0 [r0, r1, r2]
      = Except.ok
          [⟨lbl, 0, TestStatus.passed, 0, none, some r0⟩,
            ⟨lbl, 1, TestStatus.failed, 0, some msg, some r1⟩,
            ⟨lbl, 2, TestStatus.passed, 0, none, some r2⟩] := by
    simp [runSequential, executeSingleTest, h0, h1, h2, bind, Except.bind, pure, Except.pure]
  have hps : processSource loader tf false 4 true ⟨p, some lbl⟩
      = Except.ok (3,
          [⟨lbl, 0, TestStatus.passed, 0, none, some r0⟩,
            ⟨lbl, 1, TestStatus.failed, 0, some msg, some r1⟩,
            ⟨lbl, 2, TestStatus.passed, 0, none, some r2⟩]) := by
    simp [processSource, bind, Except.bind, hload, hseq, pure, Except.pure]
  have hloop : execLoop (processSource loader tf false 4 true) true [⟨p, some lbl⟩] 0 []
      = Except.ok (3,
          [⟨lbl, 0, TestStatus.passed, 0, none, some r0⟩,
            ⟨lbl, 1, TestStatus.failed, 0, some msg, some r1⟩,
            ⟨lbl, 2, TestStatus.passed, 0, none, some r2⟩]) := by
    simp [execLoop, hps]
  simp [executeDataDrivenTests, hloop, List.countP, List.countP.go]
  decide

/-- Claim C4, witness: a concrete three-record run whose index-1 invocation
throws "boom". -/
theorem C4_witness :
    executeDataDrivenTests (fun _ => Except.ok [10, 20, 30])
      (fun (_ : Nat) i _ => if i == 1 then Except.error "boom" else Except.ok ())
      [⟨"p.json", some "L"⟩] false 4 true true
      = Except.ok
          (⟨3, 2, 1, 0,
            [⟨"L", 0, TestStatus.passed, 0, none, some 10⟩,
              ⟨"L", 1, TestStatus.failed, 0, some "boom", some 20⟩,
              ⟨"L", 2, TestStatus.passed, 0, none, some 30⟩]⟩,
            [⟨3, 2, 1, 0,
              [⟨"L", 0, TestStatus.passed, 0, none, some 10⟩,
                ⟨"L", 1, TestStatus.failed, 0, some "boom", some 20⟩,
                ⟨"L", 2, TestStatus.passed, 0, none, some 30⟩]⟩]) :=
  C4_sequential_continue_on_failure (fun _ => Except.ok [10, 20, 30])
    (fun (_ : Nat) i _ => if i == 1 then Except.error "boom" else Except.ok ())
    10 20 30 "p.json" "L" "boom" rfl rfl rfl rfl

/-- Claim C10: every Execution Summary actually returned satisfies
`skipped = 0`, `totalTests = passed + failed + skipped`, and
`totalTests = results.length`: each successfully loaded record contributes
exactly one result, which is either "passed" or "failed" (the
`maxConcurrency` hypothesis reflects that the source never returns from the
parallel path with a zero chunk size — its chunking loop does not
terminate there). -/
theorem C10_summary_invariant {α : Type} [DecidableEq α]
    (loader : String → Except String (List α))
    (tf : α → Nat → String → Except String Unit)
    (sources : List DataSource) (parallel : Bool) (maxC : Nat) (cOF genR : Bool)
    (summ : ExecSummary α) (reports : List (ExecSummary α))
    (hmc : parallel = true → 1 ≤ maxC)
    (h : executeDataDrivenTests loader tf sources parallel maxC cOF genR
      = Except.ok (summ, reports)) :
    summ.skipped = 0 ∧ summ.totalTests = summ.passed + summ.failed + summ.skipped
      ∧ summ.totalTests = summ.results.length := by
  unfold executeDataDrivenTests at h
  cases hloop : execLoop (processSource loader tf parallel maxC cOF) cOF sources 0 [] with
  | error e => rw [hloop] at h; cases h
  | ok tr =>
    obtain ⟨T, R⟩ := tr
    rw [hloop] at h
    injection h with h'
    injection h' with hsum hrep
    obtain ⟨hT, hst⟩ :=
      execLoop_ok (fun {ds n rs} hds => processSource_ok hmc hds) rfl
        (fun r hr => absurd hr (List.not_mem_nil r)) hloop
    obtain ⟨hc1, hc2⟩ := countP_status_split hst
    subst hsum
    refine ⟨hc2, ?_, ?_⟩
    · simp only []
      rw [hc2, hT, Nat.add_zero, hc1]
    · exact hT

/-- Claim C10, witness: a concrete successful run whose summary satisfies the
invariant. -/
theorem C10_witness :
    executeDataDrivenTests (fun _ => Except.ok [(7 : Nat)]) (fun _ _ _ => Except.ok ())
      [⟨"a.json", some "A"⟩] false 4 true true
      = Except.ok (⟨1, 1, 0, 0, [⟨"A", 0, TestStatus.passed, 0, none, some 7⟩]⟩,
          [⟨1, 1, 0, 0, [⟨"A", 0, TestStatus.passed, 0, none, some 7⟩]⟩])
    ∧ ((⟨1, 1, 0, 0, [⟨"A", 0, TestStatus.passed, 0, none, some 7⟩]⟩ : ExecSummary Nat).skipped = 0
        ∧ (⟨1, 1, 0, 0, [⟨"A", 0, TestStatus.passed, 0, none, some 7⟩]⟩ : ExecSummary Nat).totalTests
            = 1 + 0 + 0
        ∧ (⟨1, 1, 0, 0, [⟨"A", 0, TestStatus.passed, 0, none, some 7⟩]⟩ : ExecSummary Nat).totalTests
            = 1) :=
  ⟨rfl,
    C10_summary_invariant (fun _ => Except.ok [(7 : Nat)]) (fun _ _ _ => Except.ok ())
      [⟨"a.json", some "A"⟩] false 4 true true
      ⟨1, 1, 0, 0, [⟨"A", 0, TestStatus.passed, 0, none, some 7⟩]⟩
      [⟨1, 1, 0, 0, [⟨"A", 0, TestStatus.passed, 0, none, some 7⟩]⟩]
      (fun h => by cases h) rfl⟩

/-- Claim C5: with `continueOnFailure = false`, if some record invocation of
the test function rejects (stated for both modes, each with the index the
code actually passes to the invocation), the error propagates out of
`executeDataDrivenTests`: the call returns an error, hence no Execution
Summary and no report (reports exist only in the success result). -/
theorem C5_abort_propagates {α : Type} [DecidableEq α]
    (loader : String → Except String (List α))
    (tf : α → Nat → String → Except String Unit)
    (sources : List DataSource) (parallel : Bool) (maxC : Nat) (genR : Bool)
    (ds : DataSource) (data : List α) (msg : String)
    (hs : ds ∈ sources) (hload : loader ds.path = Except.ok data)
    (hthrow :
      (parallel = false ∧ ∃ k, ∃ hk : k < data.length,
        tf (data.get ⟨k, hk⟩) k (ds.label.getD (basename ds.path)) = Except.error msg)
      ∨ (parallel = true ∧ 1 ≤ maxC ∧ ∃ r ∈ data,
          tf r (data.indexOf r) (ds.label.getD (basename ds.path)) = Except.error msg)) :
    ∃ e, executeDataDrivenTests loader tf sources parallel maxC false genR
      = Except.error e := by
  have hps : ∃ e0, processSource loader tf parallel maxC false ds = Except.error e0 := by
    rcases hthrow with ⟨hpar, k, hk, htf⟩ | ⟨hpar, hmc, r, hr, htf⟩
    · subst hpar
      have htf' : tf (data.get ⟨k, hk⟩) (0 + k) (ds.label.getD (basename ds.path))
          = Except.error msg := by rw [Nat.zero_add]; exact htf
      obtain ⟨e, he⟩ := runSequential_error hk htf'
      exact ⟨e, by simp [processSource, bind, Except.bind, hload, he]⟩
    · subst hpar
      have hflat : (chunkArray data maxC).flatten = data := chunkArray_flatten data maxC hmc
      have hrf : r ∈ (chunkArray data maxC).flatten := by rw [hflat]; exact hr
      obtain ⟨chunk, hcm, hrc⟩ := List.mem_flatten.1 hrf
      have hest : executeSingleTest tf r ((chunkArray data maxC).flatten.indexOf r)
          (ds.label.getD (basename ds.path)) false = Except.error msg := by
        apply executeSingleTest_abort
        rw [hflat]
        exact htf
      have hmem : Except.error msg ∈ runChunk tf (ds.label.getD (basename ds.path)) false
          (chunkArray data maxC).flatten chunk := by
        simp only [runChunk, List.mem_map]
        exact ⟨r, hrc, hest⟩
      obtain ⟨e1, he1⟩ := collectAll_error_of_mem hmem
      obtain ⟨e2, he2⟩ := collectChunks_error hcm he1
      exact ⟨e2, by simp [processSource, bind, Except.bind, hload, he2]⟩
  obtain ⟨e0, he0⟩ := hps
  obtain ⟨e1, he1⟩ := execLoop_error 0 [] hs he0
  exact ⟨e1, by simp [executeDataDrivenTests, he1]⟩

/-- Claim C5, witness: a single-record sequential run whose invocation
rejects with "x" under `continueOnFailure = false` yields an error, not a
summary. -/
theorem C5_witness :
    ∃ e, executeDataDrivenTests (fun _ => Except.ok [(5 : Nat)])
      (fun _ _ _ => Except.error "x") [⟨"p", some "L"⟩] false 4 false true
      = Except.error e :=
  C5_abort_propagates (fun _ => Except.ok [(5 : Nat)]) (fun _ _ _ => Except.error "x")
    [⟨"p", some "L"⟩] false 4 true ⟨"p", some "L"⟩ [5] "x"
    (List.mem_singleton.2 rfl) rfl (Or.inl ⟨rfl, 0, by decide, rfl⟩)

/-- Claim C1 (corrected): in parallel mode with `maxConcurrency ≥ 1`,
`continueOnFailure = true` and **pairwise-distinct** records (distinct under
JavaScript `===`, which holds automatically for freshly parsed object
records but not for duplicated primitive values), the results of one data
source carry exactly the indices `0 .. N-1`, each record's result carrying
its original position in the full source list regardless of chunk
boundaries.  The distinctness restriction is forced by
`chunks.flat().indexOf(record)`, which returns the index of the *first*
`===`-equal occurrence (see the counterexample). -/
theorem C1_parallel_index_attribution {α : Type} [DecidableEq α]
    (loader : String → Except String (List α))
    (tf : α → Nat → String → Except String Unit)
    (p lbl : String) (data : List α) (maxC : Nat) (genR : Bool)
    (hload : loader p = Except.ok data) (hmc : 1 ≤ maxC) (hnd : data.Nodup) :
    (executeDataDrivenTests loader tf [⟨p, some lbl⟩] true maxC true genR).map
        (fun x => x.1.results.map (fun r => r.index))
      = Except.ok (List.range data.length) := by
  have hflat : (chunkArray data maxC).flatten = data := chunkArray_flatten data maxC hmc
  have hps : processSource loader tf true maxC true ⟨p, some lbl⟩
      = Except.ok (data.length, data.map (fun r => singleResult tf r (data.indexOf r) lbl)) := by
    simp only [processSource, bind, Except.bind, hload, Option.getD, eq_self_iff_true,
      if_true, hflat, collectChunks_cont tf lbl data, pure, Except.pure]
  have hloop : execLoop (processSource loader tf true maxC true) true [⟨p, some lbl⟩] 0 []
      = Except.ok (0 + data.length,
          [] ++ data.map (fun r => singleResult tf r (data.indexOf r) lbl)) := by
    simp only [execLoop, hps]
  simp only [executeDataDrivenTests, hloop, Except.map, List.nil_append, List.map_map]
  have hcomp : ((fun r => TestResult.index r) ∘ fun r => singleResult tf r (data.indexOf r) lbl)
      = fun r => data.indexOf r :=
    funext (fun r => singleResult_index tf r (data.indexOf r) lbl)
  rw [hcomp, map_indexOf_range data hnd]

/-- Claim C1, witness: three distinct records with `maxConcurrency = 2`
yield indices `[0, 1, 2]`. -/
theorem C1_witness :
    (executeDataDrivenTests (fun _ => Except.ok [(3 : Nat), 7, 9])
        (fun _ _ _ => Except.ok ()) [⟨"d.json", some "D"⟩] true 2 true true).map
        (fun x => x.1.results.map (fun r => r.index))
      = Except.ok (List.range 3) :=
  C1_parallel_index_attribution (fun _ => Except.ok [(3 : Nat), 7, 9])
    (fun _ _ _ => Except.ok ()) "d.json" "D" [3, 7, 9] 2 true rfl (by decide) (by decide)

/-- Claim C1, counterexample to the claim as stated: a source with two
`===`-equal records (`[0, 0]`, e.g. a JSON array of duplicate numbers) run
in parallel with `maxConcurrency = 1` produces indices `[0, 0]` — the second
record is attributed the index of its first occurrence, not `0 .. N-1`. -/
theorem C1_counterexample :
    executeDataDrivenTests (fun _ => Except.ok [(0 : Nat), 0]) (fun _ _ _ => Except.ok ())
      [⟨"d.json", some "D"⟩] true 1 true true
      = Except.ok (⟨2, 2, 0, 0,
          [⟨"D", 0, TestStatus.passed, 0, none, some 0⟩,
            ⟨"D", 0, TestStatus.passed, 0, none, some 0⟩]⟩,
          [⟨2, 2, 0, 0,
            [⟨"D", 0, TestStatus.passed, 0, none, some 0⟩,
              ⟨"D", 0, TestStatus.passed, 0, none, some 0⟩]⟩])
    ∧ ([0, 0] : List Nat) ≠ List.range 2 :=
  ⟨rfl, by decide⟩

theorem validate_foldl (readers : Readers) (shuffle : List Rec → List Rec)
    (st : ManagerState) :
    ∀ (sources : List String) (b : Bool) (acc : List Issue),
      sources.foldl (fun acc2 source =>
          let c := checkSource readers shuffle st source
          (acc2.1 && c.1, acc2.2 ++ c.2)) (b, acc)
        = (b && sources.all (fun s => (checkSource readers shuffle st s).1),
            acc ++ sources.flatMap (fun s => (checkSource readers shuffle st s).2)) := by
  intro sources
  induction sources with
  | nil => intro b acc; simp
  | cons s rest ih =>
    intro b acc
    simp only [List.foldl_cons, List.all_cons, List.flatMap_cons]
    rw [ih]
    simp [Bool.and_assoc, List.append_assoc]

theorem checkSource_flag (readers : Readers) (shuffle : List Rec → List Rec)
    (st : ManagerState) (s : String) :
    (checkSource readers shuffle st s).1 = true ↔
      ∃ d, (loadTestData readers shuffle st s validateOpts).1 = Except.ok d ∧ d ≠ [] := by
  unfold checkSource
  cases hl : (loadTestData readers shuffle st s validateOpts).1 with
  | error e =>
    simp only []
    constructor
    · intro h; cases h
    · rintro ⟨d, hd, _⟩; cases hd
  | ok data =>
    simp only []
    constructor
    · intro h
      refine ⟨data, rfl, ?_⟩
      intro hnil
      subst hnil
      simp at h
    · rintro ⟨d, hd, hne⟩
      injection hd with hd
      subst hd
      simp only [Bool.not_eq_true', beq_eq_false_iff_ne, ne_eq]
      intro hlen
      exact hne (List.eq_nil_of_length_eq_zero hlen)

/-- Claim C8: `validateDataIntegrity` never aborts — every source contributes
exactly its own issue list, independently of failures among the other
sources (first conjunct: the returned issues are the concatenation over all
sources in order); a load failure is recorded as a single high-severity
issue (second conjunct); and the returned `valid` flag is `true` exactly
when every source loads successfully and non-empty — equivalently, `valid`
is `false` exactly when some load-failure or empty-source issue occurred,
while structure and missing-field issues never flip it (third conjunct). -/
theorem C8_validate_never_aborts (readers : Readers) (shuffle : List Rec → List Rec)
    (st : ManagerState) (sources : List String) :
    (validateDataIntegrity readers shuffle st sources).2
      = sources.flatMap (fun s => (checkSource readers shuffle st s).2)
    ∧ (∀ s e, (loadTestData readers shuffle st s validateOpts).1 = Except.error e →
        (checkSource readers shuffle st s)
          = (false, [⟨s, "Failed to load data source: " ++ e.message, "high"⟩]))
    ∧ ((validateDataIntegrity readers shuffle st sources).1 = true ↔
        ∀ s ∈ sources, ∃ d, (loadTestData readers shuffle st s validateOpts).1 = Except.ok d
          ∧ d ≠ []) := by
  have hfold := validate_foldl readers shuffle st sources true []
  refine ⟨?_, ?_, ?_⟩
  · unfold validateDataIntegrity
    rw [hfold]
    simp
  · intro s e he
    unfold checkSource
    rw [he]
  · unfold validateDataIntegrity
    rw [hfold]
    simp only [Bool.true_and, List.nil_append, List.all_eq_true]
    constructor
    · intro h s hsm
      exact (checkSource_flag readers shuffle st s).1 (h s hsm)
    · intro h s hsm
      exact (checkSource_flag readers shuffle st s).2 (h s hsm)

/-- Claim C8, witness: one empty JSON source and one unsupported-extension
source — both issues are reported (the failure does not abort the empty
check result), and `valid` is `false`; instantiated from
`C8_validate_never_aborts` at these sources. -/
theorem C8_witness :
    (validateDataIntegrity
        ⟨fun _ => Except.ok [], fun _ _ => Except.ok [],
          fun _ => Except.ok (JSONDoc.arr [])⟩ id ⟨[]⟩ ["bad.txt", "empty.json"]).2
      = ["bad.txt", "empty.json"].flatMap
          (fun s => (checkSource
            ⟨fun _ => Except.ok [], fun _ _ => Except.ok [],
              fun _ => Except.ok (JSONDoc.arr [])⟩ id ⟨[]⟩ s).2)
    ∧ ¬ ((validateDataIntegrity
          ⟨fun _ => Except.ok [], fun _ _ => Except.ok [],
            fun _ => Except.ok (JSONDoc.arr [])⟩ id ⟨[]⟩ ["bad.txt", "empty.json"]).1 = true) :=
  ⟨(C8_validate_never_aborts
      ⟨fun _ => Except.ok [], fun _ _ => Except.ok [],
        fun _ => Except.ok (JSONDoc.arr [])⟩ id ⟨[]⟩ ["bad.txt", "empty.json"]).1,
    fun h =>
      match (C8_validate_never_aborts
          ⟨fun _ => Except.ok [], fun _ _ => Except.ok [],
            fun _ => Except.ok (JSONDoc.arr [])⟩ id ⟨[]⟩ ["bad.txt", "empty.json"]).2.2.1 h
          "empty.json" (by simp) with
      | ⟨d, hd, hne⟩ => hne (by injection hd with hd2; exact hd2.symm)⟩
